import Mathlib

/-!
# The `exec` output plugin (`plugins/outputs/exec/exec.go`)

A shallow embedding of `Exec.Write` and `CommandRunner.Run`.

* Go values of interface type that may be `nil` are `Option`s.
* Effects are explicit: every operation takes the current world and returns the
  new one.  The model records the calls it makes (serializer calls and runner
  calls at the level of `Write`; process construction, timed runs and log lines
  at the level of `CommandRunner.Run`) in the order the code makes them.
* Code outside `exec.go` (the tokenizer `shellquote.Split`, the timed run
  `internal.RunTimeout`) is a parameter collected in `Env`.
-/

set_option linter.dupNamespace false

namespace ExecOutput

/-! ## Basic Go types -/

/-- Contents of a Go byte slice or of a `bytes.Buffer` that is fed to a process. -/
abbrev Bytes := List UInt8

/-- A non-nil Go `error` value, identified by the text its `Error()` method returns.
A possibly-nil `error` is an `Option GoError`. -/
structure GoError where
  Error : String
deriving DecidableEq, Repr

namespace time

/-- Go `time.Duration`: a count of nanoseconds. -/
abbrev Duration := Int

/-- Go `time.Second`. -/
def Second : Duration := 1000000000

end time

namespace internal

/-- Go `internal.Duration`, a struct wrapping a `time.Duration`. -/
structure Duration where
  Duration : time.Duration
deriving DecidableEq, Repr

end internal

/-! ## `Exec`, `Runner` and the serializer -/

/-- The data fields of `Exec` (`Command`, `Timeout`).  `Runner.Run` receives a pointer to
the `Exec`; the model hands it these fields.  `errChan` is only used by `ProcessCommand`
and is left out. -/
structure ExecFields where
  Command : String
  Timeout : internal.Duration
deriving DecidableEq, Repr

/-- The `Runner` interface: `Run(*Exec, string, bytes.Buffer) error`, acting on a world `W`. -/
structure Runner (W : Type) where
  Run : ExecFields → String → Bytes → W → Option GoError × W

/-- The `serializers.Serializer` interface, as far as `Write` uses it:
`Serialize(metric) ([]byte, error)`, acting on a world `W`. -/
structure Serializer (W M : Type) where
  Serialize : M → W → Except GoError Bytes × W

/-- The `Exec` struct.  `serializer` and `runner` are interface values and may be nil. -/
structure Exec (W M : Type) extends ExecFields where
  serializer : Option (Serializer W M)
  runner : Option (Runner W)

/-- A call made by `Write` on one of its two collaborators. -/
inductive Call (M : Type) where
  | Serialize (metric : M)
  | Run (e : ExecFields) (command : String) (buffer : Bytes)
deriving DecidableEq, Repr

/-- The state `Write` runs in: the world its collaborators act on, and the calls made so far. -/
structure State (W M : Type) where
  world : W
  calls : List (Call M)

/-- How a call of `Write` ends: it returns an `error` (possibly nil), or it panics on a
nil interface value. -/
inductive Outcome where
  | returned (err : Option GoError)
  | panicked
deriving DecidableEq, Repr

/-- Number of `Runner.Run` calls in a call record. -/
def runCount {M : Type} : List (Call M) → Nat
  | [] => 0
  | Call.Run _ _ _ :: cs => runCount cs + 1
  | Call.Serialize _ :: cs => runCount cs

/-- Metrics handed to the serializer in a call record, in call order. -/
def serialized {M : Type} : List (Call M) → List M
  | [] => []
  | Call.Serialize m :: cs => m :: serialized cs
  | Call.Run _ _ _ :: cs => serialized cs

/-- The loop of `Write` (lines 103-109): serialize each metric in order and append the bytes
to `buffer`; stop at the first error. -/
def serializeLoop {W M : Type} (ser : Serializer W M) :
    List M → Bytes → State W M → Except GoError Bytes × State W M
  | [], buffer, s => (Except.ok buffer, s)
  | metric :: rest, buffer, s =>
    match ser.Serialize metric s.world with
    | (Except.error err, w) => (Except.error err, ⟨w, s.calls ++ [Call.Serialize metric]⟩)
    | (Except.ok value, w) =>
      serializeLoop ser rest (buffer ++ value) ⟨w, s.calls ++ [Call.Serialize metric]⟩

/-- `func (e *Exec) Write(metrics []telegraf.Metric) error`. -/
def Exec.Write {W M : Type} (e : Exec W M) (metrics : List M) (s : State W M) :
    Outcome × State W M :=
  if metrics.length = 0 then
    (Outcome.returned none, s)
  else
    match e.serializer with
    | none => (Outcome.panicked, s)
    | some ser =>
      match serializeLoop ser metrics [] s with
      | (Except.error err, s1) => (Outcome.returned (some err), s1)
      | (Except.ok buffer, s1) =>
        match e.runner with
        | none => (Outcome.panicked, s1)
        | some r =>
          match r.Run e.toExecFields e.Command buffer s1.world with
          | (some err, w) =>
            (Outcome.returned (some err),
              ⟨w, s1.calls ++ [Call.Run e.toExecFields e.Command buffer]⟩)
          | (none, w) =>
            (Outcome.returned none,
              ⟨w, s1.calls ++ [Call.Run e.toExecFields e.Command buffer]⟩)

/-- Specification side: serializing the metrics one after the other from world `w` succeeds
for every one of them, giving their byte strings in order and the world reached. -/
def serializeInOrder {W M : Type} (ser : Serializer W M) : List M → W → Option (List Bytes × W)
  | [], w => some ([], w)
  | m :: ms, w =>
    match ser.Serialize m w with
    | (Except.ok value, w1) =>
      match serializeInOrder ser ms w1 with
      | some (values, w2) => some (value :: values, w2)
      | none => none
    | (Except.error _, _) => none

/-! ## Formatting: `fmt` verbs and `strconv.Quote` -/

/-- The double quote character. -/
def doubleChar : Char := Char.ofNat 34

/-- The single quote character. -/
def singleChar : Char := Char.ofNat 39

/-- The backslash character. -/
def escapeChar : Char := Char.ofNat 92

namespace strconv

/-- Digit `n` of Go `lowerhex = "0123456789abcdef"`. -/
def lowerhex (n : Nat) : Char :=
  "0123456789abcdef".data.getD n '0'

/-- The `width` lowest hexadecimal digits of `v`, most significant first. -/
def hex (width v : Nat) : List Char :=
  (List.range width).reverse.map (fun i => lowerhex (v / 16 ^ i % 16))

/-- Go `strconv.IsPrint`.  Runes up to U+00FF are decided as the Go function does on its
fast path; for the others the answer comes from Unicode tables, which are the parameter
`wide`. -/
def IsPrint (wide : Char → Bool) (r : Char) : Bool :=
  if r.toNat ≤ 0xFF then
    if 0x20 ≤ r.toNat ∧ r.toNat ≤ 0x7E then true
    else if 0xA1 ≤ r.toNat then r.toNat != 0xAD
    else false
  else wide r

/-- Go `appendEscapedRune(buf, r, '"', false, false)`: what `Quote` writes for the rune `r`:
the double quote and the backslash get a backslash, printable runes stand for themselves,
the others are written as escapes.  (A Lean `Char` is always a valid rune.) -/
def appendEscapedRune (wide : Char → Bool) (r : Char) : List Char :=
  if r = doubleChar ∨ r = escapeChar then [escapeChar, r]
  else if IsPrint wide r then [r]
  else if r.toNat = 7 then [escapeChar, 'a']
  else if r.toNat = 8 then [escapeChar, 'b']
  else if r.toNat = 12 then [escapeChar, 'f']
  else if r.toNat = 10 then [escapeChar, 'n']
  else if r.toNat = 13 then [escapeChar, 'r']
  else if r.toNat = 9 then [escapeChar, 't']
  else if r.toNat = 11 then [escapeChar, 'v']
  else if r.toNat < 0x20 ∨ r.toNat = 0x7F then escapeChar :: 'x' :: hex 2 r.toNat
  else if r.toNat < 0x10000 then escapeChar :: 'u' :: hex 4 r.toNat
  else escapeChar :: 'U' :: hex 8 r.toNat

/-- Go `strconv.Quote` on a string of valid UTF-8: the verb `%q` of `fmt` applied to a
string. -/
def Quote (wide : Char → Bool) (s : String) : String :=
  ⟨doubleChar :: (s.data.map (appendEscapedRune wide)).flatten ++ [doubleChar]⟩

end strconv

namespace fmt

/-- The verb `%s` of `fmt` applied to an operand of type `error`: the error text, or the
placeholder Go prints for a nil operand. -/
def verbS : Option GoError → String
  | some err => err.Error
  | none => "%!s(<nil>)"

end fmt

/-! ## Processes -/

namespace exec

/-- Go `exec.Cmd`, the description of a process to run: the fields `Path`, `Args`, `Stdin`
and `Stderr`.  The standard error buffer is represented by the text it holds. -/
structure Cmd where
  Path : String
  Args : List String
  Stdin : Option Bytes
  Stderr : Option String
deriving DecidableEq, Repr

/-- Go `exec.Command(name, arg...)`.  Looking `name` up in the search path is left to
the start of the process. -/
def Command (name : String) (arg : List String) : Cmd :=
  { Path := name, Args := name :: arg, Stdin := none, Stderr := none }

end exec

/-- What `CommandRunner.Run` does to the outside, in order. -/
inductive Event where
  | Command (name : String) (arg : List String)
  | RunTimeout (cmd : exec.Cmd) (timeout : time.Duration)
  | Printf (line : String)
deriving DecidableEq, Repr

/-- The world `CommandRunner.Run` acts on: the operating system `os` and the record of
what `Run` did. -/
structure World (Ω : Type) where
  os : Ω
  events : List Event

/-- The process descriptions built by `exec.Command` in a record: name and arguments. -/
def commands : List Event → List (String × List String)
  | [] => []
  | Event.Command name arg :: evs => (name, arg) :: commands evs
  | _ :: evs => commands evs

/-- The timed runs in a record: the process description run and the time limit. -/
def timedRuns : List Event → List (exec.Cmd × time.Duration)
  | [] => []
  | Event.RunTimeout cmd timeout :: evs => (cmd, timeout) :: timedRuns evs
  | _ :: evs => timedRuns evs

/-- The lines written to the log in a record. -/
def logLines : List Event → List String
  | [] => []
  | Event.Printf line :: evs => line :: logLines evs
  | _ :: evs => logLines evs

/-- The code `CommandRunner.Run` calls that lies outside `exec.go`. -/
structure Env (Ω : Type) where
  /-- The tokenizer `shellquote.Split(input) (words []string, err error)`. -/
  Split : String → List String × Option GoError
  /-- The timed run `internal.RunTimeout(cmd, timeout) error`: its error, the text the
  standard error buffer of `cmd` holds afterwards, and the new state of the system. -/
  RunTimeout : exec.Cmd → time.Duration → Ω → (Option GoError × String) × Ω
  /-- The Unicode tables behind `strconv.IsPrint`. -/
  wide : Char → Bool

/-- The error of line 50: `fmt.Errorf("exec: unable to parse command, %s", err)`. -/
def parseError (err : Option GoError) : GoError :=
  ⟨"exec: unable to parse command, " ++ fmt.verbS err⟩

/-- The error of line 64: `fmt.Errorf("exec: %s for command %q", err, command)`. -/
def runError (wide : Char → Bool) (err : GoError) (command : String) : GoError :=
  ⟨"exec: " ++ err.Error ++ " for command " ++ strconv.Quote wide command⟩

/-- The log line of line 61: `log.Printf("D! Command error: %q\n", s)`. -/
def commandErrorLine (wide : Char → Bool) (s : String) : String :=
  "D! Command error: " ++ strconv.Quote wide s ++ "\n"

/-- `func (c CommandRunner) Run(e *Exec, command string, buffer bytes.Buffer) error`. -/
def CommandRunner.Run {Ω : Type} (env : Env Ω) (e : ExecFields) (command : String)
    (buffer : Bytes) (w : World Ω) : Option GoError × World Ω :=
  match env.Split command with
  | (splitCmd, err) =>
    if err ≠ none ∨ splitCmd.length = 0 then
      (some (parseError err), w)
    else
      match splitCmd with
      | [] => (some (parseError err), w) -- not reached: the vector is not empty here
      | name :: arg =>
        let cmd : exec.Cmd := { exec.Command name arg with Stdin := some buffer, Stderr := some "" }
        let started := w.events ++ [Event.Command name arg, Event.RunTimeout cmd e.Timeout.Duration]
        match env.RunTimeout cmd e.Timeout.Duration w.os with
        | ((some err, s), os) =>
          if s ≠ "" then
            (some (runError env.wide err command),
              ⟨os, started ++ [Event.Printf (commandErrorLine env.wide s)]⟩)
          else
            (some (runError env.wide err command), ⟨os, started⟩)
        | ((none, _), os) => (none, ⟨os, started⟩)

/-- The runner value `CommandRunner{}`. -/
def CommandRunner {Ω : Type} (env : Env Ω) : Runner (World Ω) :=
  ⟨CommandRunner.Run env⟩

/-- The factory registered by `init` under the name "exec". -/
def newExec {Ω M : Type} (env : Env Ω) : Exec (World Ω) M :=
  { Command := ""
    Timeout := ⟨time.Second * 5⟩
    serializer := none
    runner := some (CommandRunner env) }

/-! ## A concrete environment

The theorems below hold for every `Env`.  To evaluate the code on concrete commands they
are instantiated with a model of the tokenizer and a small table of programs. -/

namespace shellquote

/-- Where the tokenizer is: between words, in a bare word, in single quotes, in double
quotes. -/
inductive Mode where
  | between
  | raw
  | single
  | double
deriving DecidableEq, Repr

/-- The characters that separate words: `splitChars = " \n\t"`. -/
def isSplitChar (c : Char) : Bool :=
  c = ' ' ∨ c = '\n' ∨ c = '\t'

/-- The characters a backslash escapes inside double quotes: dollar, backtick, double
quote, newline, backslash. -/
def isDoubleEscapeChar (c : Char) : Bool :=
  c = '$' ∨ c = Char.ofNat 96 ∨ c = doubleChar ∨ c = '\n' ∨ c = escapeChar

/-- The word-splitting automaton: `buf` is the word being built, `words` the words
finished so far. -/
def scan : Mode → List Char → List String → List Char → List String × Option GoError
  | Mode.between, _, words, [] => (words, none)
  | Mode.between, buf, words, c :: rest =>
    if isSplitChar c then scan Mode.between buf words rest
    else if c = escapeChar then
      match rest with
      | [] => (words, some ⟨"Unterminated backslash-escape"⟩)
      | d :: rest2 =>
        if d = '\n' then scan Mode.between buf words rest2
        else scan Mode.raw [d] words rest2
    else if c = singleChar then scan Mode.single [] words rest
    else if c = doubleChar then scan Mode.double [] words rest
    else scan Mode.raw [c] words rest
  | Mode.raw, buf, words, [] => (words ++ [String.mk buf], none)
  | Mode.raw, buf, words, c :: rest =>
    if c = singleChar then scan Mode.single buf words rest
    else if c = doubleChar then scan Mode.double buf words rest
    else if c = escapeChar then
      match rest with
      | [] => (words, some ⟨"Unterminated backslash-escape"⟩)
      | d :: rest2 =>
        if d = '\n' then scan Mode.raw buf words rest2
        else scan Mode.raw (buf ++ [d]) words rest2
    else if isSplitChar c then scan Mode.between [] (words ++ [String.mk buf]) rest
    else scan Mode.raw (buf ++ [c]) words rest
  | Mode.single, _, words, [] => (words, some ⟨"Unterminated single-quoted string"⟩)
  | Mode.single, buf, words, c :: rest =>
    if c = singleChar then scan Mode.raw buf words rest
    else scan Mode.single (buf ++ [c]) words rest
  | Mode.double, _, words, [] => (words, some ⟨"Unterminated double-quoted string"⟩)
  | Mode.double, buf, words, c :: rest =>
    if c = doubleChar then scan Mode.raw buf words rest
    else if c = escapeChar then
      match rest with
      | [] => (words, some ⟨"Unterminated double-quoted string"⟩)
      | d :: rest2 =>
        if isDoubleEscapeChar d then
          if d = '\n' then scan Mode.double buf words rest2
          else scan Mode.double (buf ++ [d]) words rest2
        else scan Mode.double (buf ++ [c, d]) words rest2
    else scan Mode.double (buf ++ [c]) words rest

/-- Modelled from the spec: the tokenizer (section 4.1; in the code `shellquote.Split` of the
package `github.com/kballard/go-shellquote`, whose source is not part of the repository).
It splits on whitespace, honours single quotes, double quotes and backslash escapes as a
POSIX shell does, and fails on an unterminated quote or escape. -/
def Split (input : String) : List String × Option GoError :=
  scan Mode.between [] [] input.data

end shellquote

/-- A few programs of the process table: how long each runs, in nanoseconds, and how it
ends when it is left to finish (its error and what it wrote to standard error). -/
def demoProgram (path : String) : Option (time.Duration × Option GoError × String) :=
  if path = "cat" then some (1000000, none, "")
  else if path = "false" then some (1000000, some ⟨"exit status 1"⟩, "")
  else if path = "/usr/bin/mycollector" then
    some (1000000, some ⟨"exit status 1"⟩, "disk full\n")
  else if path = "sleep" then some (10000000000, none, "")
  else none

/-- A process table standing in for the operating system: what running a few programs
under a time limit gives.  A program that runs longer than the limit is killed and the run
reports a timeout; a program that is not in the table cannot be started.  The state of the
system is the number of processes started. -/
def demoRunTimeout (cmd : exec.Cmd) (timeout : time.Duration) (os : Nat) :
    (Option GoError × String) × Nat :=
  match demoProgram cmd.Path with
  | none => ((some ⟨"fork/exec " ++ cmd.Path ++ ": no such file or directory"⟩, ""), os)
  | some (runs, err, stderr) =>
    if timeout < runs then ((some ⟨"Command timed out."⟩, ""), os + 1)
    else ((err, stderr), os + 1)

/-- The concrete environment: the tokenizer model, the process table, and no printable
rune beyond U+00FF. -/
def demoEnv : Env Nat :=
  { Split := shellquote.Split
    RunTimeout := demoRunTimeout
    wide := fun _ => false }

/-- A serializer for metrics that are numbers: the number as one byte followed by a
newline; numbers above 255 are rejected. -/
def demoSerializer : Serializer (World Nat) Nat :=
  ⟨fun m w => if m < 256 then (Except.ok [UInt8.ofNat m, 10], w)
    else (Except.error ⟨"metric out of range"⟩, w)⟩

/-- An `Exec` with the given command and timeout, the demo serializer and `CommandRunner`. -/
def demoExec (command : String) (timeout : time.Duration) : Exec (World Nat) Nat :=
  { Command := command
    Timeout := ⟨timeout⟩
    serializer := some demoSerializer
    runner := some (CommandRunner demoEnv) }

/-- The initial state: nothing started, nothing recorded. -/
def demoState : State (World Nat) Nat :=
  ⟨⟨0, []⟩, []⟩

/-! ## Facts about the call record and the serialization loop -/

theorem runCount_append {M : Type} (a b : List (Call M)) :
    runCount (a ++ b) = runCount a + runCount b := by
  induction a with
  | nil => simp [runCount]
  | cons c cs ih =>
    cases c with
    | Serialize m => simpa [runCount] using ih
    | Run e c buf => simp [runCount, ih]; omega

theorem runCount_map_Serialize {M : Type} (ms : List M) :
    runCount (ms.map Call.Serialize) = 0 := by
  induction ms with
  | nil => rfl
  | cons m ms ih => simpa [runCount] using ih

theorem serialized_append {M : Type} (a b : List (Call M)) :
    serialized (a ++ b) = serialized a ++ serialized b := by
  induction a with
  | nil => simp [serialized]
  | cons c cs ih =>
    cases c with
    | Serialize m => simp [serialized, ih]
    | Run e c buf => simpa [serialized] using ih

theorem serialized_map_Serialize {M : Type} (ms : List M) :
    serialized (ms.map Call.Serialize) = ms := by
  induction ms with
  | nil => rfl
  | cons m ms ih => simp [serialized, ih]

/-- When every metric serializes, the loop ends with the bytes of all of them appended to
the buffer, in order, having called the serializer once per metric. -/
theorem serializeLoop_ok {W M : Type} (ser : Serializer W M) (ms : List M) :
    ∀ (buffer : Bytes) (s : State W M) (values : List Bytes) (w1 : W),
      serializeInOrder ser ms s.world = some (values, w1) →
      serializeLoop ser ms buffer s
        = (Except.ok (buffer ++ values.flatten), ⟨w1, s.calls ++ ms.map Call.Serialize⟩) := by
  induction ms with
  | nil =>
    intro buffer s values w1 h
    simp only [serializeInOrder, Option.some.injEq, Prod.mk.injEq] at h
    obtain ⟨hv, hw⟩ := h
    subst hv; subst hw
    simp [serializeLoop]
  | cons m ms ih =>
    intro buffer s values w1 h
    rcases hm : ser.Serialize m s.world with ⟨r, w⟩
    cases r with
    | error err => simp [serializeInOrder, hm] at h
    | ok value =>
      rcases hrest : serializeInOrder ser ms w with _ | ⟨vs, w2⟩
      · simp [serializeInOrder, hm, hrest] at h
      · simp only [serializeInOrder, hm, hrest, Option.some.injEq, Prod.mk.injEq] at h
        obtain ⟨hv, hw⟩ := h
        subst hv; subst hw
        have := ih (buffer ++ value) ⟨w, s.calls ++ [Call.Serialize m]⟩ vs w2 hrest
        simp only [serializeLoop, hm]
        refine this.trans ?_
        simp

/-- When the metrics of `pre` serialize and the next metric does not, the loop ends with
that metric's error, having called the serializer on `pre` and on that metric only. -/
theorem serializeLoop_fail {W M : Type} (ser : Serializer W M) (pre : List M) :
    ∀ (m : M) (post : List M) (buffer : Bytes) (s : State W M) (values : List Bytes)
      (w1 w2 : W) (err : GoError),
      serializeInOrder ser pre s.world = some (values, w1) →
      ser.Serialize m w1 = (Except.error err, w2) →
      serializeLoop ser (pre ++ m :: post) buffer s
        = (Except.error err, ⟨w2, s.calls ++ (pre ++ [m]).map Call.Serialize⟩) := by
  induction pre with
  | nil =>
    intro m post buffer s values w1 w2 err h hm
    simp only [serializeInOrder, Option.some.injEq, Prod.mk.injEq] at h
    obtain ⟨_, hw⟩ := h
    subst hw
    simp [serializeLoop, hm]
  | cons p pre ih =>
    intro m post buffer s values w1 w2 err h hm
    rcases hp : ser.Serialize p s.world with ⟨r, w⟩
    cases r with
    | error e => simp [serializeInOrder, hp] at h
    | ok value =>
      rcases hrest : serializeInOrder ser pre w with _ | ⟨vs, w3⟩
      · simp [serializeInOrder, hp, hrest] at h
      · simp only [serializeInOrder, hp, hrest, Option.some.injEq, Prod.mk.injEq] at h
        obtain ⟨_, hw⟩ := h
        subst hw
        have := ih m post (buffer ++ value) ⟨w, s.calls ++ [Call.Serialize p]⟩ vs w3 w2 err
          hrest hm
        simp only [List.cons_append, serializeLoop, hp]
        refine this.trans ?_
        simp

/-! ## `Write` -/

/-- C1: for every `Exec`, `Write` on an empty batch returns nil and leaves the state as it
was: it calls neither the serializer nor the runner, so it adds no `Runner.Run` call. -/
theorem Write_empty_batch {W M : Type} (e : Exec W M) (s : State W M) :
    e.Write [] s = (Outcome.returned none, s)
    ∧ runCount (e.Write [] s).2.calls = runCount s.calls
    ∧ serialized (e.Write [] s).2.calls = serialized s.calls
    ∧ runCount (e.Write [] ⟨s.world, []⟩).2.calls = 0 := by
  simp [Exec.Write, runCount]

/-- C2: on a batch `pre ++ m :: post` where the metrics of `pre` serialize and `m` is the
first one the serializer fails on, `Write` returns the error of `m`, the serializer has been
called on `pre` and `m` in order and on no metric of `post`, and `Runner.Run` has not been
called. -/
theorem Write_serialization_failure {W M : Type} (e : Exec W M) (ser : Serializer W M)
    (hser : e.serializer = some ser) (pre post : List M) (m : M) (s : State W M)
    (values : List Bytes) (w1 w2 : W) (err : GoError)
    (hpre : serializeInOrder ser pre s.world = some (values, w1))
    (hm : ser.Serialize m w1 = (Except.error err, w2)) :
    e.Write (pre ++ m :: post) s
        = (Outcome.returned (some err), ⟨w2, s.calls ++ (pre ++ [m]).map Call.Serialize⟩)
    ∧ runCount (e.Write (pre ++ m :: post) s).2.calls = runCount s.calls
    ∧ serialized (e.Write (pre ++ m :: post) s).2.calls = serialized s.calls ++ (pre ++ [m]) := by
  have hW : e.Write (pre ++ m :: post) s
      = (Outcome.returned (some err), ⟨w2, s.calls ++ (pre ++ [m]).map Call.Serialize⟩) := by
    simp only [Exec.Write, hser, serializeLoop_fail ser pre m post [] s values w1 w2 err hpre hm]
    simp
  refine ⟨hW, ?_, ?_⟩
  · rw [hW]; simp only [runCount_append, runCount_map_Serialize]; rfl
  · rw [hW]; simp only [serialized_append, serialized_map_Serialize]

/-- Witness for C2: the batch 1, 2, 300, 4, 500 with a serializer that rejects 300 and 500. -/
theorem Write_serialization_failure_witness :
    (demoExec "cat" time.Second).serializer = some demoSerializer
    ∧ serializeInOrder demoSerializer [1, 2] demoState.world
        = some ([[1, 10], [2, 10]], demoState.world)
    ∧ demoSerializer.Serialize 300 demoState.world
        = (Except.error ⟨"metric out of range"⟩, demoState.world)
    ∧ ((demoExec "cat" time.Second).Write ([1, 2] ++ 300 :: [4, 500]) demoState
        = (Outcome.returned (some ⟨"metric out of range"⟩),
            ⟨demoState.world, demoState.calls ++ ([1, 2] ++ [300]).map Call.Serialize⟩)
      ∧ runCount ((demoExec "cat" time.Second).Write ([1, 2] ++ 300 :: [4, 500]) demoState).2.calls
        = runCount demoState.calls
      ∧ serialized
          ((demoExec "cat" time.Second).Write ([1, 2] ++ 300 :: [4, 500]) demoState).2.calls
        = serialized demoState.calls ++ ([1, 2] ++ [300])) :=
  ⟨rfl, rfl, rfl,
    Write_serialization_failure (demoExec "cat" time.Second) demoSerializer rfl [1, 2] [4, 500]
      300 demoState [[1, 10], [2, 10]] demoState.world demoState.world
      ⟨"metric out of range"⟩ rfl rfl⟩

/-- C3: on a non-empty batch whose metrics all serialize, `Write` calls `Runner.Run` exactly
once, after the serializer calls, with the configured `Command` and the concatenation of the
serialized metrics in batch order, and returns what that call returns. -/
theorem Write_runs_once {W M : Type} (e : Exec W M) (ser : Serializer W M) (r : Runner W)
    (hser : e.serializer = some ser) (hr : e.runner = some r) (metrics : List M)
    (hne : metrics ≠ []) (s : State W M) (values : List Bytes) (w1 : W)
    (hall : serializeInOrder ser metrics s.world = some (values, w1)) :
    e.Write metrics s
        = (Outcome.returned (r.Run e.toExecFields e.Command values.flatten w1).1,
            ⟨(r.Run e.toExecFields e.Command values.flatten w1).2,
              s.calls ++ metrics.map Call.Serialize
                ++ [Call.Run e.toExecFields e.Command values.flatten]⟩)
    ∧ runCount (e.Write metrics s).2.calls = runCount s.calls + 1 := by
  have hlen : ¬ metrics.length = 0 := by
    simpa [List.length_eq_zero] using hne
  have hW : e.Write metrics s
      = (Outcome.returned (r.Run e.toExecFields e.Command values.flatten w1).1,
          ⟨(r.Run e.toExecFields e.Command values.flatten w1).2,
            s.calls ++ metrics.map Call.Serialize
              ++ [Call.Run e.toExecFields e.Command values.flatten]⟩) := by
    simp only [Exec.Write, hlen, if_false, hser, hr,
      serializeLoop_ok ser metrics [] s values w1 hall, List.nil_append]
    rcases hrun : r.Run e.toExecFields e.Command values.flatten w1 with ⟨err, w⟩
    cases err <;> rfl
  refine ⟨hW, ?_⟩
  rw [hW]
  simp only [runCount_append, runCount_map_Serialize, runCount]

/-- Witness for C3: the batch 1, 2, 3 piped into `cat`. -/
theorem Write_runs_once_witness :
    (demoExec "cat" time.Second).serializer = some demoSerializer
    ∧ (demoExec "cat" time.Second).runner = some (CommandRunner demoEnv)
    ∧ ([1, 2, 3] : List Nat) ≠ []
    ∧ serializeInOrder demoSerializer [1, 2, 3] demoState.world
        = some ([[1, 10], [2, 10], [3, 10]], demoState.world)
    ∧ ((demoExec "cat" time.Second).Write [1, 2, 3] demoState
        = (Outcome.returned
            ((CommandRunner demoEnv).Run (demoExec "cat" time.Second).toExecFields "cat"
              [1, 10, 2, 10, 3, 10] demoState.world).1,
            ⟨((CommandRunner demoEnv).Run (demoExec "cat" time.Second).toExecFields "cat"
              [1, 10, 2, 10, 3, 10] demoState.world).2,
              demoState.calls ++ [1, 2, 3].map Call.Serialize
                ++ [Call.Run (demoExec "cat" time.Second).toExecFields "cat"
                  [1, 10, 2, 10, 3, 10]]⟩)
      ∧ runCount ((demoExec "cat" time.Second).Write [1, 2, 3] demoState).2.calls
        = runCount demoState.calls + 1) :=
  ⟨rfl, rfl, by decide, rfl,
    Write_runs_once (demoExec "cat" time.Second) demoSerializer (CommandRunner demoEnv) rfl rfl
      [1, 2, 3] (by decide) demoState [[1, 10], [2, 10], [3, 10]] demoState.world rfl⟩

/-! ## `CommandRunner.Run` -/

theorem commands_append (a b : List Event) : commands (a ++ b) = commands a ++ commands b := by
  induction a with
  | nil => simp [commands]
  | cons ev evs ih => cases ev <;> simp [commands, ih]

theorem timedRuns_append (a b : List Event) :
    timedRuns (a ++ b) = timedRuns a ++ timedRuns b := by
  induction a with
  | nil => simp [timedRuns]
  | cons ev evs ih => cases ev <;> simp [timedRuns, ih]

theorem logLines_append (a b : List Event) : logLines (a ++ b) = logLines a ++ logLines b := by
  induction a with
  | nil => simp [logLines]
  | cons ev evs ih => cases ev <;> simp [logLines, ih]

/-- Nothing is built or started when the tokenizer reports an error or gives no word:
`Run` returns the error of line 50 and leaves the world as it was. -/
theorem Run_unparsable {Ω : Type} (env : Env Ω) (e : ExecFields) (command : String)
    (buffer : Bytes) (w : World Ω)
    (h : (env.Split command).2 ≠ none ∨ (env.Split command).1 = []) :
    CommandRunner.Run env e command buffer w = (some (parseError (env.Split command).2), w) := by
  rcases hs : env.Split command with ⟨splitCmd, err⟩
  rw [hs] at h
  simp only [CommandRunner.Run, hs]
  have hc : err ≠ none ∨ splitCmd.length = 0 := by
    rcases h with h | h
    · exact Or.inl h
    · exact Or.inr (by simpa using h)
  rw [if_pos hc]

/-- With a non-empty argument vector, `Run` builds the process description, runs it under
the time limit of the `Exec`, and its result follows the result of the timed run. -/
theorem Run_parsed {Ω : Type} (env : Env Ω) (e : ExecFields) (command : String)
    (buffer : Bytes) (w : World Ω) (name : String) (arg : List String)
    (h : env.Split command = (name :: arg, none)) :
    CommandRunner.Run env e command buffer w
      = match env.RunTimeout ⟨name, name :: arg, some buffer, some ""⟩ e.Timeout.Duration w.os with
        | ((some err, s), os) =>
          (some (runError env.wide err command),
            ⟨os, w.events ++ [Event.Command name arg,
                  Event.RunTimeout ⟨name, name :: arg, some buffer, some ""⟩ e.Timeout.Duration]
                ++ (if s ≠ "" then [Event.Printf (commandErrorLine env.wide s)] else [])⟩)
        | ((none, _), os) =>
          (none,
            ⟨os, w.events ++ [Event.Command name arg,
                  Event.RunTimeout ⟨name, name :: arg, some buffer, some ""⟩ e.Timeout.Duration]⟩) := by
  simp only [CommandRunner.Run, h, exec.Command]
  rcases hrt : env.RunTimeout ⟨name, name :: arg, some buffer, some ""⟩ e.Timeout.Duration w.os
    with ⟨⟨err, s⟩, os⟩
  cases err with
  | none => simp
  | some err =>
    by_cases hs : s = ""
    · simp [hs]
    · simp [hs]

/-- A string made of printable runes other than the double quote and the backslash is
quoted by putting it between double quotes. -/
theorem Quote_verbatim (wide : Char → Bool) (s : String)
    (h : ∀ c ∈ s.data, c ≠ doubleChar ∧ c ≠ escapeChar ∧ strconv.IsPrint wide c = true) :
    (strconv.Quote wide s).data = doubleChar :: s.data ++ [doubleChar] := by
  have key : ∀ l : List Char,
      (∀ c ∈ l, c ≠ doubleChar ∧ c ≠ escapeChar ∧ strconv.IsPrint wide c = true) →
      (l.map (strconv.appendEscapedRune wide)).flatten = l := by
    intro l
    induction l with
    | nil => intro _; rfl
    | cons c cs ih =>
      intro hl
      have hc := hl c (List.mem_cons_self c cs)
      have hcs := ih (fun d hd => hl d (List.mem_cons_of_mem c hd))
      simp [strconv.appendEscapedRune, hc.1, hc.2.1, hc.2.2, hcs]
  simp [strconv.Quote, key s.data h]

/-- Between words, the tokenizer model skips separators: an input made of separators only
gives no word and no error. -/
theorem scan_blank (input : List Char) :
    ∀ (buf : List Char) (words : List String), (∀ c ∈ input, shellquote.isSplitChar c = true) →
      shellquote.scan shellquote.Mode.between buf words input = (words, none) := by
  induction input with
  | nil => intro buf words _; rfl
  | cons c rest ih =>
    intro buf words h
    have hc := h c (List.mem_cons_self c rest)
    rw [shellquote.scan.eq_def]
    simp only [hc, if_true]
    exact ih buf words (fun d hd => h d (List.mem_cons_of_mem c hd))

/-- An error of the tokenizer model has one of three texts. -/
theorem scan_error_text (n : Nat) :
    ∀ (input : List Char), input.length ≤ n →
    ∀ (mode : shellquote.Mode) (buf : List Char) (words ws : List String) (perr : GoError),
      shellquote.scan mode buf words input = (ws, some perr) →
      perr.Error = "Unterminated backslash-escape"
      ∨ perr.Error = "Unterminated single-quoted string"
      ∨ perr.Error = "Unterminated double-quoted string" := by
  induction n with
  | zero =>
    intro input hlen mode buf words ws perr h
    have : input = [] := List.length_eq_zero.mp (Nat.le_zero.mp hlen)
    subst this
    cases mode <;> simp [shellquote.scan] at h <;> (try (obtain ⟨_, h⟩ := h; subst h; simp))
  | succ n ih =>
    intro input hlen mode buf words ws perr h
    cases input with
    | nil =>
      cases mode <;> simp [shellquote.scan] at h <;> (try (obtain ⟨_, h⟩ := h; subst h; simp))
    | cons c rest =>
      have hrest : rest.length ≤ n := by simpa using hlen
      cases rest with
      | nil =>
        cases mode <;> simp only [shellquote.scan] at h <;> split_ifs at h <;>
          first
          | exact ih _ hrest _ _ _ _ _ h
          | (simp at h <;> (try (obtain ⟨_, h⟩ := h; subst h; simp)))
      | cons d rest2 =>
        have hrest2 : rest2.length ≤ n := by simp at hrest; omega
        cases mode <;> simp only [shellquote.scan] at h <;> split_ifs at h <;>
          first
          | exact ih _ hrest _ _ _ _ _ h
          | exact ih _ hrest2 _ _ _ _ _ h

/-- The tokenizer model splits an empty or whitespace-only command into no word, without
error. -/
theorem Split_blank (input : String)
    (h : ∀ c ∈ input.data, shellquote.isSplitChar c = true) :
    shellquote.Split input = ([], none) :=
  scan_blank input.data [] [] h

/-- C4 (as amended): with `CommandRunner` and a `Command` that is empty or made only of
spaces, tabs and newlines (the separators of the tokenizer), `Write` on a non-empty batch
whose metrics all serialize calls `Run` once, `Run` returns a non-nil error and leaves the
world as the serializer left it, so that no process is built or started, and `Write` returns
that error. -/
theorem Write_blank_command {Ω M : Type} (env : Env Ω) (e : Exec (World Ω) M)
    (ser : Serializer (World Ω) M) (hser : e.serializer = some ser)
    (hr : e.runner = some (CommandRunner env))
    (hsplit : env.Split e.Command = shellquote.Split e.Command)
    (hblank : ∀ c ∈ e.Command.data, c = ' ' ∨ c = '\n' ∨ c = '\t')
    (metrics : List M) (hne : metrics ≠ []) (s : State (World Ω) M) (values : List Bytes)
    (w1 : World Ω) (hall : serializeInOrder ser metrics s.world = some (values, w1)) :
    ∃ err : GoError,
      CommandRunner.Run env e.toExecFields e.Command values.flatten w1 = (some err, w1)
      ∧ e.Write metrics s
        = (Outcome.returned (some err),
            ⟨w1, s.calls ++ metrics.map Call.Serialize
                  ++ [Call.Run e.toExecFields e.Command values.flatten]⟩) := by
  have hlen : ¬ metrics.length = 0 := by
    simpa [List.length_eq_zero] using hne
  have hcmd : env.Split e.Command = ([], none) := by
    rw [hsplit]
    apply Split_blank
    intro c hc
    simpa [shellquote.isSplitChar] using hblank c hc
  have hrun : CommandRunner.Run env e.toExecFields e.Command values.flatten w1
      = (some (parseError none), w1) := by
    have := Run_unparsable env e.toExecFields e.Command values.flatten w1
      (Or.inr (by rw [hcmd]))
    rw [hcmd] at this
    exact this
  refine ⟨parseError none, hrun, ?_⟩
  simp only [Exec.Write, hlen, if_false, hser, hr,
    serializeLoop_ok ser metrics [] s values w1 hall, List.nil_append, CommandRunner, hrun]

/-- Witness for C4 (as amended): a command of two spaces and a tab, batch 1, 2. -/
theorem Write_blank_command_witness :
    (demoExec "  \t" time.Second).serializer = some demoSerializer
    ∧ (demoExec "  \t" time.Second).runner = some (CommandRunner demoEnv)
    ∧ demoEnv.Split (demoExec "  \t" time.Second).Command
        = shellquote.Split (demoExec "  \t" time.Second).Command
    ∧ (∀ c ∈ (demoExec "  \t" time.Second).Command.data, c = ' ' ∨ c = '\n' ∨ c = '\t')
    ∧ ([1, 2] : List Nat) ≠ []
    ∧ serializeInOrder demoSerializer [1, 2] demoState.world
        = some ([[1, 10], [2, 10]], demoState.world)
    ∧ ∃ err : GoError,
        CommandRunner.Run demoEnv (demoExec "  \t" time.Second).toExecFields
            (demoExec "  \t" time.Second).Command ([[1, 10], [2, 10]] : List Bytes).flatten
            demoState.world
          = (some err, demoState.world)
        ∧ (demoExec "  \t" time.Second).Write [1, 2] demoState
          = (Outcome.returned (some err),
              ⟨demoState.world, demoState.calls ++ [1, 2].map Call.Serialize
                    ++ [Call.Run (demoExec "  \t" time.Second).toExecFields
                          (demoExec "  \t" time.Second).Command
                          ([[1, 10], [2, 10]] : List Bytes).flatten]⟩) :=
  ⟨rfl, rfl, rfl, by decide, by decide, rfl,
    Write_blank_command demoEnv (demoExec "  \t" time.Second) demoSerializer rfl rfl rfl
      (by decide) [1, 2] (by decide) demoState [[1, 10], [2, 10]] demoState.world rfl⟩

/-- C4 fails as stated.  With an empty command, and with a command of spaces, `Write` on the
empty batch returns nil, not an error.  With an empty command and a batch whose metric does
not serialize, `Write` returns the serializer's error and `Run` is not called.  And a
command that is a lone carriage return, which is whitespace but not a separator of the
tokenizer, is one word: a process description is built from it and a timed run is made. -/
theorem Write_blank_command_empty_batch :
    ((demoExec "" time.Second).Write [] demoState).1 = Outcome.returned none
    ∧ ((demoExec "   " time.Second).Write [] demoState).1 = Outcome.returned none
    ∧ ((demoExec "" time.Second).Write [300] demoState).1
        = Outcome.returned (some ⟨"metric out of range"⟩)
    ∧ runCount ((demoExec "" time.Second).Write [300] demoState).2.calls = 0
    ∧ shellquote.Split "\r" = (["\r"], none)
    ∧ commands ((demoExec "\r" time.Second).Write [1] demoState).2.world.events
        = [("\r", [])]
    ∧ timedRuns ((demoExec "\r" time.Second).Write [1] demoState).2.world.events
        = [(⟨"\r", ["\r"], some [1, 10], some ""⟩, time.Second)] := by
  decide

/-- C5: when the tokenizer reports an error, and when it gives no word, `Run` returns a
non-nil error and leaves the world as it was (no process description built, no timed run, no
log line).  The two errors have different texts as long as the text of the tokenizer's error
is not the placeholder "%!s(<nil>)" that stands for the missing error in the second case;
no error of the tokenizer model has that text. -/
theorem Run_parse_failure {Ω : Type} (env : Env Ω) (e : ExecFields) (command : String)
    (buffer : Bytes) (w : World Ω) :
    (∀ words perr, env.Split command = (words, some perr) →
      CommandRunner.Run env e command buffer w
        = (some ⟨"exec: unable to parse command, " ++ perr.Error⟩, w))
    ∧ (env.Split command = ([], none) →
      CommandRunner.Run env e command buffer w
        = (some ⟨"exec: unable to parse command, %!s(<nil>)"⟩, w))
    ∧ (∀ perr : GoError, perr.Error ≠ "%!s(<nil>)" →
      parseError (some perr) ≠ parseError none)
    ∧ (∀ input words perr, shellquote.Split input = (words, some perr) →
      parseError (some perr) ≠ parseError none) := by
  have hdiff : ∀ perr : GoError, perr.Error ≠ "%!s(<nil>)" →
      parseError (some perr) ≠ parseError none := by
    intro perr hne heq
    apply hne
    have h1 : (parseError (some perr)).Error.data = (parseError none).Error.data := by rw [heq]
    simp only [parseError, fmt.verbS, String.data_append] at h1
    exact String.ext (List.append_cancel_left h1)
  refine ⟨?_, ?_, hdiff, ?_⟩
  · intro words perr h
    have := Run_unparsable env e command buffer w (Or.inl (by rw [h]; simp))
    rw [h] at this
    exact this
  · intro h
    have := Run_unparsable env e command buffer w (Or.inr (by rw [h]))
    rw [h] at this
    exact this
  · intro input words perr h
    apply hdiff
    rcases scan_error_text input.data.length input.data (Nat.le_refl _) shellquote.Mode.between
      [] [] words perr h with h1 | h1 | h1 <;> rw [h1] <;> decide

/-- Witness for C5: an unterminated quote against a blank command. -/
theorem Run_parse_failure_witness :
    CommandRunner.Run demoEnv ⟨"", ⟨time.Second⟩⟩ "echo 'a" [1, 10] demoState.world
        = (some ⟨"exec: unable to parse command, Unterminated single-quoted string"⟩,
            demoState.world)
    ∧ CommandRunner.Run demoEnv ⟨"", ⟨time.Second⟩⟩ " " [1, 10] demoState.world
        = (some ⟨"exec: unable to parse command, %!s(<nil>)"⟩, demoState.world)
    ∧ parseError (some ⟨"Unterminated single-quoted string"⟩) ≠ parseError none :=
  ⟨(Run_parse_failure demoEnv ⟨"", ⟨time.Second⟩⟩ "echo 'a" [1, 10] demoState.world).1
      ["echo"] ⟨"Unterminated single-quoted string"⟩ (by decide),
    (Run_parse_failure demoEnv ⟨"", ⟨time.Second⟩⟩ " " [1, 10] demoState.world).2.1 (by decide),
    (Run_parse_failure demoEnv ⟨"", ⟨time.Second⟩⟩ " " [1, 10] demoState.world).2.2.1
      ⟨"Unterminated single-quoted string"⟩ (by decide)⟩

/-- C6: `Run` returns nil exactly when the tokenizer gives a non-empty argument vector
without error and the timed run of the process built from it returns no error. -/
theorem Run_nil_iff {Ω : Type} (env : Env Ω) (e : ExecFields) (command : String)
    (buffer : Bytes) (w : World Ω) :
    (CommandRunner.Run env e command buffer w).1 = none
      ↔ ∃ name arg, env.Split command = (name :: arg, none)
          ∧ (env.RunTimeout ⟨name, name :: arg, some buffer, some ""⟩
                e.Timeout.Duration w.os).1.1 = none := by
  rcases hs : env.Split command with ⟨splitCmd, err⟩
  cases err with
  | some perr =>
    have h := Run_unparsable env e command buffer w (Or.inl (by rw [hs]; simp))
    rw [h]
    simp
  | none =>
    cases splitCmd with
    | nil =>
      have h := Run_unparsable env e command buffer w (Or.inr (by rw [hs]))
      rw [h]
      simp
    | cons name arg =>
      rw [Run_parsed env e command buffer w name arg hs]
      rcases hrt : env.RunTimeout ⟨name, name :: arg, some buffer, some ""⟩
        e.Timeout.Duration w.os with ⟨⟨rerr, s⟩, os⟩
      cases rerr with
      | none =>
        simp only [true_iff]
        exact ⟨name, arg, rfl, by rw [hrt]⟩
      | some rerr =>
        constructor
        · intro h
          cases h
        · rintro ⟨n, a, hna, hnil⟩
          simp only [Prod.mk.injEq, List.cons.injEq, and_true] at hna
          obtain ⟨hn, ha⟩ := hna
          subst hn; subst ha
          rw [hrt] at hnil
          cases hnil

/-- C7 (as amended): when the timed run fails, the text of the error `Run` returns is
"exec: ", the text of that failure, " for command " and the command as `%q` prints it.  It
contains the quoted command, and it contains the command itself when the command is made of
printable runes other than the double quote and the backslash. -/
theorem Run_error_text {Ω : Type} (env : Env Ω) (e : ExecFields) (command : String)
    (buffer : Bytes) (w : World Ω) (name : String) (arg : List String) (err : GoError)
    (s : String) (os : Ω) (hsplit : env.Split command = (name :: arg, none))
    (hrun : env.RunTimeout ⟨name, name :: arg, some buffer, some ""⟩ e.Timeout.Duration w.os
      = ((some err, s), os)) :
    ∃ msg : String, (CommandRunner.Run env e command buffer w).1 = some ⟨msg⟩
      ∧ msg = "exec: " ++ err.Error ++ " for command " ++ strconv.Quote env.wide command
      ∧ (strconv.Quote env.wide command).data <:+: msg.data
      ∧ ((∀ c ∈ command.data,
            c ≠ doubleChar ∧ c ≠ escapeChar ∧ strconv.IsPrint env.wide c = true) →
          command.data <:+: msg.data) := by
  refine ⟨"exec: " ++ err.Error ++ " for command " ++ strconv.Quote env.wide command,
    ?_, rfl, ?_, ?_⟩
  · rw [Run_parsed env e command buffer w name arg hsplit, hrun]
    by_cases hs : s = "" <;> simp [hs, runError]
  · simp only [String.data_append]
    exact (List.suffix_append _ _).isInfix
  · intro hplain
    simp only [String.data_append, Quote_verbatim env.wide command hplain]
    refine ⟨("exec: " ++ err.Error ++ " for command ").data ++ [doubleChar], [doubleChar], ?_⟩
    simp [String.data_append]

/-- Witness for C7 (as amended): `false` exits with status 1. -/
theorem Run_error_text_witness :
    demoEnv.Split "false" = ("false" :: [], none)
    ∧ demoEnv.RunTimeout ⟨"false", "false" :: [], some [1, 10], some ""⟩
        (⟨"false", ⟨time.Second⟩⟩ : ExecFields).Timeout.Duration demoState.world.os
      = ((some ⟨"exit status 1"⟩, ""), 1)
    ∧ ∃ msg : String,
        (CommandRunner.Run demoEnv ⟨"false", ⟨time.Second⟩⟩ "false" [1, 10] demoState.world).1
          = some ⟨msg⟩
        ∧ msg = "exec: " ++ (⟨"exit status 1"⟩ : GoError).Error ++ " for command "
            ++ strconv.Quote demoEnv.wide "false"
        ∧ (strconv.Quote demoEnv.wide "false").data <:+: msg.data
        ∧ ((∀ c ∈ "false".data,
              c ≠ doubleChar ∧ c ≠ escapeChar ∧ strconv.IsPrint demoEnv.wide c = true) →
            "false".data <:+: msg.data) :=
  ⟨by decide, by decide,
    Run_error_text demoEnv ⟨"false", ⟨time.Second⟩⟩ "false" [1, 10] demoState.world "false" []
      ⟨"exit status 1"⟩ "" 1 (by decide) (by decide)⟩

/-- C7 fails as stated: for the command `false "a b"`, which exits with status 1, the error
text holds the command with its double quotes escaped and does not contain the command
text itself. -/
theorem Run_error_text_escapes_command :
    (CommandRunner.Run demoEnv ⟨"false \"a b\"", ⟨time.Second⟩⟩ "false \"a b\"" [1, 10]
        demoState.world).1
      = some ⟨"exec: exit status 1 for command \"false \\\"a b\\\"\""⟩
    ∧ ¬ ("false \"a b\"".data
          <:+: "exec: exit status 1 for command \"false \\\"a b\\\"\"".data) := by
  decide

/-- C8 (as amended): when the timed run fails, for instance on a non-zero exit status, the
error `Run` returns is built from that failure and the command alone, whatever the process
wrote to standard error; the captured standard error text, when it is not empty, is written
to the log, quoted, and nowhere else. -/
theorem Run_failure_logs_stderr {Ω : Type} (env : Env Ω) (e : ExecFields) (command : String)
    (buffer : Bytes) (w : World Ω) (name : String) (arg : List String) (err : GoError)
    (s : String) (os : Ω) (hsplit : env.Split command = (name :: arg, none))
    (hrun : env.RunTimeout ⟨name, name :: arg, some buffer, some ""⟩ e.Timeout.Duration w.os
      = ((some err, s), os)) :
    (CommandRunner.Run env e command buffer w).1 = some (runError env.wide err command)
    ∧ logLines (CommandRunner.Run env e command buffer w).2.events
        = logLines w.events
          ++ (if s ≠ "" then ["D! Command error: " ++ strconv.Quote env.wide s ++ "\n"] else [])
    := by
  rw [Run_parsed env e command buffer w name arg hsplit, hrun]
  by_cases hs : s = ""
  · simp [hs, logLines_append, logLines]
  · simp [hs, logLines_append, logLines, commandErrorLine]

/-- Witness for C8 (as amended): the collector exits with status 1 after writing
"disk full" to standard error. -/
theorem Run_failure_logs_stderr_witness :
    demoEnv.Split "/usr/bin/mycollector --foo=bar" = ("/usr/bin/mycollector" :: ["--foo=bar"], none)
    ∧ demoEnv.RunTimeout
        ⟨"/usr/bin/mycollector", "/usr/bin/mycollector" :: ["--foo=bar"], some [1, 10], some ""⟩
        (⟨"", ⟨time.Second⟩⟩ : ExecFields).Timeout.Duration demoState.world.os
      = ((some ⟨"exit status 1"⟩, "disk full\n"), 1)
    ∧ (CommandRunner.Run demoEnv ⟨"", ⟨time.Second⟩⟩ "/usr/bin/mycollector --foo=bar" [1, 10]
          demoState.world).1
        = some (runError demoEnv.wide ⟨"exit status 1"⟩ "/usr/bin/mycollector --foo=bar")
    ∧ logLines (CommandRunner.Run demoEnv ⟨"", ⟨time.Second⟩⟩ "/usr/bin/mycollector --foo=bar"
          [1, 10] demoState.world).2.events
        = logLines demoState.world.events
          ++ (if "disk full\n" ≠ ""
              then ["D! Command error: " ++ strconv.Quote demoEnv.wide "disk full\n" ++ "\n"]
              else []) :=
  ⟨by decide, by decide,
    Run_failure_logs_stderr demoEnv ⟨"", ⟨time.Second⟩⟩ "/usr/bin/mycollector --foo=bar" [1, 10]
      demoState.world "/usr/bin/mycollector" ["--foo=bar"] ⟨"exit status 1"⟩ "disk full\n" 1
      (by decide) (by decide)⟩

/-- C8 fails as stated: the collector exits with status 1 after writing "disk full" to
standard error; the error `Write` returns is
`exec: exit status 1 for command "/usr/bin/mycollector --foo=bar"`, which does not contain
the captured text. -/
theorem Write_error_without_stderr :
    ((demoExec "/usr/bin/mycollector --foo=bar" time.Second).Write [1] demoState).1
      = Outcome.returned
          (some ⟨"exec: exit status 1 for command \"/usr/bin/mycollector --foo=bar\""⟩)
    ∧ logLines
        ((demoExec "/usr/bin/mycollector --foo=bar" time.Second).Write [1] demoState).2.world.events
      = ["D! Command error: \"disk full\\n\"\n"]
    ∧ ¬ ("disk full".data
          <:+: "exec: exit status 1 for command \"/usr/bin/mycollector --foo=bar\"".data) := by
  decide

/-- C9 (as amended): an `Exec` made by the registered factory has a `Timeout` of 5 seconds,
which is positive, and `Run` hands the `Timeout` of the `Exec` it is given to the timed run
as it is, whatever its value: the result of `Run` and the state of the system after it are
those of `internal.RunTimeout` called with that very `Timeout`, and this is the time limit
on record. -/
theorem Run_passes_Timeout {Ω : Type} (env : Env Ω) (e : ExecFields) (command : String)
    (buffer : Bytes) (w : World Ω) (name : String) (arg : List String)
    (hsplit : env.Split command = (name :: arg, none)) :
    (newExec env : Exec (World Ω) Unit).Timeout.Duration = time.Second * 5
    ∧ 0 < (newExec env : Exec (World Ω) Unit).Timeout.Duration
    ∧ (CommandRunner.Run env e command buffer w).1
        = Option.map (fun err => runError env.wide err command)
            (env.RunTimeout ⟨name, name :: arg, some buffer, some ""⟩
              e.Timeout.Duration w.os).1.1
    ∧ (CommandRunner.Run env e command buffer w).2.os
        = (env.RunTimeout ⟨name, name :: arg, some buffer, some ""⟩
            e.Timeout.Duration w.os).2
    ∧ (timedRuns (CommandRunner.Run env e command buffer w).2.events).map Prod.snd
        = (timedRuns w.events).map Prod.snd ++ [e.Timeout.Duration] := by
  refine ⟨rfl, by simp [newExec, time.Second], ?_⟩
  rw [Run_parsed env e command buffer w name arg hsplit]
  rcases hrt : env.RunTimeout ⟨name, name :: arg, some buffer, some ""⟩ e.Timeout.Duration w.os
    with ⟨⟨err, s⟩, os⟩
  cases err with
  | none => simp [timedRuns_append, timedRuns]
  | some err =>
    by_cases hs : s = ""
    · simp [hs, timedRuns_append, timedRuns]
    · simp [hs, timedRuns_append, timedRuns]

/-- Witness for C9 (as amended): `cat` run by the `Exec` of the factory. -/
theorem Run_passes_Timeout_witness :
    demoEnv.Split "cat" = ("cat" :: [], none)
    ∧ (newExec demoEnv : Exec (World Nat) Unit).Timeout.Duration = time.Second * 5
    ∧ 0 < (newExec demoEnv : Exec (World Nat) Unit).Timeout.Duration
    ∧ (CommandRunner.Run demoEnv (newExec demoEnv : Exec (World Nat) Unit).toExecFields
          "cat" [1, 10] demoState.world).1
        = Option.map (fun err => runError demoEnv.wide err "cat")
            (demoEnv.RunTimeout ⟨"cat", "cat" :: [], some [1, 10], some ""⟩
              (newExec demoEnv : Exec (World Nat) Unit).toExecFields.Timeout.Duration
              demoState.world.os).1.1
    ∧ (CommandRunner.Run demoEnv (newExec demoEnv : Exec (World Nat) Unit).toExecFields
          "cat" [1, 10] demoState.world).2.os
        = (demoEnv.RunTimeout ⟨"cat", "cat" :: [], some [1, 10], some ""⟩
            (newExec demoEnv : Exec (World Nat) Unit).toExecFields.Timeout.Duration
            demoState.world.os).2
    ∧ (timedRuns (CommandRunner.Run demoEnv (newExec demoEnv : Exec (World Nat) Unit).toExecFields
          "cat" [1, 10] demoState.world).2.events).map Prod.snd
        = (timedRuns demoState.world.events).map Prod.snd
          ++ [(newExec demoEnv : Exec (World Nat) Unit).toExecFields.Timeout.Duration] :=
  ⟨by decide,
    Run_passes_Timeout demoEnv (newExec demoEnv : Exec (World Nat) Unit).toExecFields "cat"
      [1, 10] demoState.world "cat" [] (by decide)⟩

/-- C9 fails as stated: with a `Timeout` of zero, `cat` is run under a time limit of zero,
not of 5 seconds.  Under a limit of zero the timed run of `cat` reports a timeout, under a
limit of 5 seconds it reports no error; `Run` with a `Timeout` of zero returns the timeout
error, and with a `Timeout` of 5 seconds it returns nil. -/
theorem Run_zero_Timeout :
    (demoEnv.RunTimeout ⟨"cat", ["cat"], some [1, 10], some ""⟩ 0 demoState.world.os).1.1
      = some ⟨"Command timed out."⟩
    ∧ (demoEnv.RunTimeout ⟨"cat", ["cat"], some [1, 10], some ""⟩ (time.Second * 5)
        demoState.world.os).1.1 = none
    ∧ (CommandRunner.Run demoEnv ⟨"cat", ⟨0⟩⟩ "cat" [1, 10] demoState.world).1
      = some ⟨"exec: Command timed out. for command \"cat\""⟩
    ∧ (CommandRunner.Run demoEnv ⟨"cat", ⟨time.Second * 5⟩⟩ "cat" [1, 10] demoState.world).1
      = none
    ∧ timedRuns (CommandRunner.Run demoEnv ⟨"cat", ⟨0⟩⟩ "cat" [1, 10] demoState.world).2.events
      = [(⟨"cat", ["cat"], some [1, 10], some ""⟩, 0)]
    ∧ ¬ (0 < (0 : time.Duration))
    ∧ (0 : time.Duration) ≠ time.Second * 5 := by
  decide

/-- C10: for a command that the tokenizer splits into the non-empty vector `name :: arg`,
`Run` builds one process description, from `name` and `arg`, and runs one process under a
time limit: its path is `name`, its arguments after the program name are `arg`, its standard
input is the buffer given to `Run`, its standard error is an empty buffer, and the time limit
is the `Timeout` of the `Exec`. -/
theorem Run_process {Ω : Type} (env : Env Ω) (e : ExecFields) (command : String)
    (buffer : Bytes) (w : World Ω) (name : String) (arg : List String)
    (hsplit : env.Split command = (name :: arg, none)) :
    commands (CommandRunner.Run env e command buffer w).2.events
        = commands w.events ++ [(name, arg)]
    ∧ timedRuns (CommandRunner.Run env e command buffer w).2.events
        = timedRuns w.events
          ++ [({ Path := name, Args := name :: arg, Stdin := some buffer, Stderr := some "" },
                e.Timeout.Duration)]
    ∧ (CommandRunner.Run env e command buffer w).2.os
        = (env.RunTimeout ⟨name, name :: arg, some buffer, some ""⟩ e.Timeout.Duration w.os).2 := by
  rw [Run_parsed env e command buffer w name arg hsplit]
  rcases hrt : env.RunTimeout ⟨name, name :: arg, some buffer, some ""⟩ e.Timeout.Duration w.os
    with ⟨⟨err, s⟩, os⟩
  cases err with
  | none => simp [timedRuns_append, timedRuns, commands_append, commands]
  | some err =>
    by_cases hs : s = ""
    · simp [hs, timedRuns_append, timedRuns, commands_append, commands]
    · simp [hs, timedRuns_append, timedRuns, commands_append, commands]

/-- Witness for C10: a command with a quoted argument. -/
theorem Run_process_witness :
    demoEnv.Split "cat -- 'my file'" = ("cat" :: ["--", "my file"], none)
    ∧ commands (CommandRunner.Run demoEnv ⟨"", ⟨time.Second⟩⟩ "cat -- 'my file'" [1, 10]
          demoState.world).2.events
        = commands demoState.world.events ++ [("cat", ["--", "my file"])]
    ∧ timedRuns (CommandRunner.Run demoEnv ⟨"", ⟨time.Second⟩⟩ "cat -- 'my file'" [1, 10]
          demoState.world).2.events
        = timedRuns demoState.world.events
          ++ [({ Path := "cat", Args := "cat" :: ["--", "my file"], Stdin := some [1, 10],
                  Stderr := some "" },
                (⟨"", ⟨time.Second⟩⟩ : ExecFields).Timeout.Duration)]
    ∧ (CommandRunner.Run demoEnv ⟨"", ⟨time.Second⟩⟩ "cat -- 'my file'" [1, 10]
          demoState.world).2.os
        = (demoEnv.RunTimeout ⟨"cat", "cat" :: ["--", "my file"], some [1, 10], some ""⟩
            (⟨"", ⟨time.Second⟩⟩ : ExecFields).Timeout.Duration demoState.world.os).2 :=
  ⟨by decide,
    Run_process demoEnv ⟨"", ⟨time.Second⟩⟩ "cat -- 'my file'" [1, 10] demoState.world "cat"
      ["--", "my file"] (by decide)⟩

end ExecOutput
